import Mathlib

/-!
# Verification of the crawl-worker coordination subsystem

A shallow embedding of the coordination logic of the crawl-worker
repository (manager worker, general worker, product worker) together
with proofs about it.  Values stored in the coordinator are modelled as
`Option String` (absent / present) where string parsing matters, and as
typed options where only the parsed payload is ever read or written.
-/

set_option maxHeartbeats 1000000

/-- Model of JavaScript `parseInt(s, 10)`: skip leading whitespace, read an
optional sign, then the maximal prefix of decimal digits; `none` models `NaN`
(no digits found). -/
def jsDigits (cs : List Char) : Option Nat :=
  let ds := cs.takeWhile Char.isDigit
  if ds.isEmpty then none
  else some (ds.foldl (fun a c => a * 10 + (c.toNat - 48)) 0)

/-- JavaScript `parseInt(s, 10)` returning `none` for `NaN`. -/
def jsParseInt (s : String) : Option Int :=
  let cs := s.toList.dropWhile (fun c => c = ' ' ∨ c = '\t' ∨ c = '\n' ∨ c = '\r')
  match cs with
  | [] => none
  | c :: rest =>
    if c = '-' then (jsDigits rest).map (fun n => -(n : Int))
    else if c = '+' then (jsDigits rest).map (fun n => (n : Int))
    else (jsDigits (c :: rest)).map (fun n => (n : Int))

/-- Little-endian decimal digits of `n`, with explicit fuel so that the
definition is structurally recursive. -/
def decDigitsRev (fuel n : Nat) : List Nat :=
  match fuel with
  | 0 => []
  | fuel + 1 => if n = 0 then [] else n % 10 :: decDigitsRev fuel (n / 10)

/-- Decimal rendering of a natural number, as produced by JavaScript
`Number.prototype.toString` for a non-negative integer. -/
def natToDecimalString (n : Nat) : String :=
  if n = 0 then "0"
  else ⟨((decDigitsRev n n).reverse.map Nat.digitChar)⟩

/-- `detectActiveGeneralWorkers` (manager worker) and `detectActiveWorkers`
(general worker): scan worker ids `1..20`; a worker is active when its
heartbeat key holds a string that parses to a time `t` with
`now - t < 60000` (strictly).  The source pushes ids in ascending order and
then sorts numerically, so the result is the ascending filter of `1..20`. -/
def detectActiveGeneralWorkers (heartbeat : Nat → Option String) (now : Int) : List Nat :=
  (List.range' 1 20).filter (fun workerId =>
    match heartbeat workerId with
    | some heartbeatStr =>
      match jsParseInt heartbeatStr with
      | some heartbeatTime => decide (now - heartbeatTime < 60000)
      | none => false
    | none => false)

/-- Heartbeat table used as a counterexample: only worker 1 has a heartbeat,
and it reads `"0"`. -/
def heartbeatAtZero : Nat → Option String := fun workerId =>
  if workerId = 1 then some "0" else none

/-- Product worker, `crawlAllPages` page-change check (lines 882-890): the set
of freshly extracted ASINs differs from the stored set when the sizes differ
or some new ASIN is absent from the existing set.  Sets of strings are
modelled by deduplicated lists. -/
def asinsChanged (existingAsins newAsins : List String) : Bool :=
  decide (existingAsins.dedup.length ≠ newAsins.dedup.length) ||
    !(newAsins.dedup.all (fun asin => existingAsins.contains asin))

/-- The coordinator state read and written by the product worker's poll
(`checkAndCrawlIfNeeded`): its own `product/<id>/pages` list (already parsed)
and the `crawlTrigger` flag. -/
structure ProductPollState where
  workerPages : Option (List Nat)
  crawlTrigger : Option String
deriving DecidableEq, Repr

/-- Product worker `checkAndCrawlIfNeeded`: if the worker's page list is
present and non-empty, crawl at once (the trigger key is not touched);
otherwise, if `crawlTrigger` is `"1"`, delete the trigger and then crawl.
The result is the coordinator state at the moment `crawlAllPages` is entered
(`none` when no crawl starts on this poll). -/
def checkAndCrawlIfNeeded (s : ProductPollState) : Option ProductPollState :=
  match s.workerPages with
  | some pages =>
    if pages.length > 0 then some s
    else if s.crawlTrigger = some "1" then some { s with crawlTrigger := none } else none
  | none =>
    if s.crawlTrigger = some "1" then some { s with crawlTrigger := none } else none

/-- The `{start,end}` JSON object written to `general/<id>/pages`. -/
structure PageRange where
  start : Nat
  «end» : Nat
deriving DecidableEq, Repr

/-- The coordinator state read and written by the manager worker.  Heartbeats,
`totalPages` and the rotation keys are raw strings (their parsing matters);
page ranges are stored parsed (they are only ever written and read as JSON
`{start,end}` objects). -/
structure ManagerState where
  totalPages : Option String
  generalHeartbeat : Nat → Option String
  generalPages : Nat → Option PageRange
  generalComplete : Nat → Option String
  generalProcessing : Nat → Option String
  rotationIndex : Option String
  lastAssignedPage : Option String
  now : Int

/-- `Math.ceil(totalPages / activeWorkers.length)` for positive integers. -/
def pagesPerWorker (totalPages workerCount : Nat) : Nat :=
  (totalPages + workerCount - 1) / workerCount

/-- The range written to the worker at position `i` by `distributePagesEvenly`:
`start = i * pagesPerWorker + 1`, `end = min((i + 1) * pagesPerWorker, totalPages)`. -/
def evenRange (pagesPerWorkerCount totalPages i : Nat) : PageRange :=
  ⟨i * pagesPerWorkerCount + 1, min ((i + 1) * pagesPerWorkerCount) totalPages⟩

/-- The assignment loop of `distributePagesEvenly` (manager worker, lines
150-161): position counter `i`, one coordinator write of `pages` and one
delete of `complete` per active worker. -/
def assignRangesFrom (pagesPerWorkerCount totalPages : Nat) :
    List Nat → Nat → ManagerState → ManagerState
  | [], _, st => st
  | workerId :: rest, i, st =>
    assignRangesFrom pagesPerWorkerCount totalPages rest (i + 1)
      { st with
        generalPages := fun w =>
          if w = workerId then some (evenRange pagesPerWorkerCount totalPages i)
          else st.generalPages w
        generalComplete := fun w => if w = workerId then none else st.generalComplete w }

/-- Manager worker `distributePagesEvenly`: partition `[1..totalPages]` into
ceil-sized slices over the active workers in ascending id order. -/
def distributePagesEvenly (s : ManagerState) (totalPages : Nat) : ManagerState :=
  let activeWorkers := detectActiveGeneralWorkers s.generalHeartbeat s.now
  if activeWorkers.isEmpty then s
  else assignRangesFrom (pagesPerWorker totalPages activeWorkers.length) totalPages activeWorkers 0 s

/-- The even-mode reassignment trigger of `checkAndAssignWork` (manager
worker, lines 236-264): some active worker has no `pages` key, or some active
worker that is NOT `processing == "1"` has `complete == "1"` with its range
end below `totalPages`. -/
def needsAssignmentEven (s : ManagerState) (totalPages : Nat) : Bool :=
  (detectActiveGeneralWorkers s.generalHeartbeat s.now).any (fun workerId =>
    match s.generalPages workerId with
    | none => true
    | some range =>
      if s.generalProcessing workerId = some "1" then false
      else decide (s.generalComplete workerId = some "1") && decide (range.«end» < totalPages))

/-- One even-mode manager tick (`checkAndAssignWork` with round-robin
disabled): read and validate `totalPages`, compute the trigger, and when it
fires run `distributePagesEvenly`. -/
def checkAndAssignWorkEven (s : ManagerState) : ManagerState :=
  match s.totalPages with
  | none => s
  | some totalPagesStr =>
    match jsParseInt totalPagesStr with
    | none => s
    | some totalPagesInt =>
      if totalPagesInt ≤ 0 then s
      else
        let activeWorkers := detectActiveGeneralWorkers s.generalHeartbeat s.now
        if activeWorkers.isEmpty then s
        else if needsAssignmentEven s totalPagesInt.toNat then
          distributePagesEvenly s totalPagesInt.toNat
        else s

/-- Validation of the rotation keys (manager worker, lines 45-78): absent,
non-numeric or negative values are treated as 0. -/
def parseRotationValue (v : Option String) : Nat :=
  match v with
  | none => 0
  | some str =>
    match jsParseInt str with
    | some n => if 0 ≤ n then n.toNat else 0
    | none => 0

/-- Manager worker `distributePagesRoundRobin` (lines 31-134): validate the
rotation state; if `lastAssignedPage >= totalPages` reset the rotation and
clear every active worker's `pages` and `complete`; otherwise assign the next
batch `[lastAssignedPage+1 .. min(lastAssignedPage+batchSize, totalPages)]`
to the worker at the rotation index and advance the rotation state. -/
def distributePagesRoundRobin (s : ManagerState) (totalPages batchSize : Nat) : ManagerState :=
  let activeWorkers := detectActiveGeneralWorkers s.generalHeartbeat s.now
  if activeWorkers.isEmpty then s
  else
    let rotationIndexRaw := parseRotationValue s.rotationIndex
    let rotationIndex := if rotationIndexRaw ≥ activeWorkers.length then 0 else rotationIndexRaw
    let lastAssignedPage := parseRotationValue s.lastAssignedPage
    if lastAssignedPage ≥ totalPages then
      { s with
        rotationIndex := some "0"
        lastAssignedPage := some "0"
        generalComplete := fun w => if w ∈ activeWorkers then none else s.generalComplete w
        generalPages := fun w => if w ∈ activeWorkers then none else s.generalPages w }
    else
      let workerId := activeWorkers.getD (rotationIndex % activeWorkers.length) 0
      let startPage := lastAssignedPage + 1
      let endPage := min (startPage + batchSize - 1) totalPages
      if startPage > totalPages then s
      else
        { s with
          generalPages := fun w =>
            if w = workerId then some ⟨startPage, endPage⟩ else s.generalPages w
          generalComplete := fun w => if w = workerId then none else s.generalComplete w
          rotationIndex := some (natToDecimalString ((rotationIndex + 1) % activeWorkers.length))
          lastAssignedPage := some (natToDecimalString endPage) }

/-- The busy/idle classification of the general worker's
`reassignPagesFromIdleWorkers`: a product worker is busy when its
`product/<id>/pages` key holds a non-empty list, idle when the key is absent
or the list is empty. -/
def isBusyWorker (workerPages : Nat → Option (List Nat)) (w : Nat) : Bool :=
  match workerPages w with
  | some pages => decide (pages.length > 0)
  | none => false

/-- The distribution loop of `reassignPagesFromIdleWorkers` (general worker,
lines 900-909): idle worker at position `i` receives the slice
`reassignPages.slice(i * pagesPerIdleWorker, min((i + 1) * pagesPerIdleWorker, len))`;
empty slices are not written. -/
def giveChunksFrom (reassignPages : List Nat) (pagesPerIdleWorker : Nat) :
    List Nat → Nat → (Nat → Option (List Nat)) → (Nat → Option (List Nat))
  | [], _, wp => wp
  | idleId :: rest, i, wp =>
    let chunk := (reassignPages.drop (i * pagesPerIdleWorker)).take pagesPerIdleWorker
    giveChunksFrom reassignPages pagesPerIdleWorker rest (i + 1)
      (if chunk.length > 0 then fun w => if w = idleId then some chunk else wp w else wp)

/-- General worker `reassignPagesFromIdleWorkers` (lines 863-913): classify
the active product workers into busy and idle; when both groups are non-empty
and the FIRST busy worker's list has more than one page, keep its first
ceil-half (`splice(half)`) and spread the removed tail over the idle workers
in ceil-sized contiguous chunks. -/
def reassignPagesFromIdleWorkers (workerPages : Nat → Option (List Nat))
    (activeWorkers : List Nat) : Nat → Option (List Nat) :=
  let busyWorkers := activeWorkers.filter (fun w => isBusyWorker workerPages w)
  let idleWorkers := activeWorkers.filter (fun w => !(isBusyWorker workerPages w))
  if idleWorkers.length > 0 && busyWorkers.length > 0 then
    match busyWorkers with
    | [] => workerPages
    | busiestWorkerId :: _ =>
      match workerPages busiestWorkerId with
      | none => workerPages
      | some pages =>
        if pages.length > 1 then
          let half := (pages.length + 1) / 2
          let keepPages := pages.take half
          let reassignPages := pages.drop half
          let pagesPerIdleWorker :=
            (reassignPages.length + idleWorkers.length - 1) / idleWorkers.length
          giveChunksFrom reassignPages pagesPerIdleWorker idleWorkers 0
            (fun w => if w = busiestWorkerId then some keepPages else workerPages w)
        else workerPages
  else workerPages

/-- The multiset of pending page numbers over a set of product workers. -/
def pendingPages (workerPages : Nat → Option (List Nat)) (workers : List Nat) : Multiset Nat :=
  ((workers.map (fun w => (workerPages w).getD [])).flatten : List Nat)

/-- Lexicographic comparison of UTF code-unit sequences: the order JavaScript's
default `Array.prototype.sort` comparator applies to the stringified elements. -/
def charListLe : List Char → List Char → Bool
  | [], _ => true
  | _ :: _, [] => false
  | a :: as, b :: bs =>
    if a.toNat < b.toNat then true
    else if b.toNat < a.toNat then false
    else charListLe as bs

/-- Ordered insertion for the model of JavaScript's default sort. -/
def jsInsert (le : Nat → Nat → Bool) (a : Nat) : List Nat → List Nat
  | [] => [a]
  | b :: bs => if le a b then a :: b :: bs else b :: jsInsert le a bs

/-- JavaScript `Array.prototype.sort()` with no comparator on an array of
numbers: a stable sort by the lexicographic order of the decimal strings
(implemented as insertion sort so the model stays structurally recursive). -/
def jsSortNums (l : List Nat) : List Nat :=
  l.foldr (jsInsert (fun a b =>
    charListLe (natToDecimalString a).toList (natToDecimalString b).toList)) []

/-- The reassignment pick-up at the top of the product worker's page loop
(`crawlAllPages`, lines 844-854): re-read `product/<id>/pages`; if the lengths
differ adopt the parsed list as-is, otherwise both arrays are sorted in place
by the comparison (`.sort()` inside `JSON.stringify` comparisons mutates), and
the work list ends up being the sorted re-read list whether or not it differs
from the local one. -/
def syncAssignedPages (localPages : List Nat) (redisPages : Option (List Nat)) : List Nat :=
  match redisPages with
  | none => localPages
  | some updatedPages =>
    if updatedPages.length ≠ localPages.length then updatedPages
    else jsSortNums updatedPages

/-- One iteration of the product worker's outer page loop (`crawlAllPages`,
lines 843-981), restricted to its effect on the work list and the
`product/<id>/pages` key: re-sync the list, look at its head; if a tab for
that page exists the page is processed, removed (`shift`) and the shortened
list written back; if no tab is found the retry loop is left with the list
untouched. -/
def crawlOuterStep (tabExists : Nat → Bool) (st : List Nat × Option (List Nat)) :
    List Nat × Option (List Nat) :=
  let localPages := syncAssignedPages st.1 st.2
  match localPages with
  | [] => ([], st.2)
  | pageNum :: rest =>
    if tabExists pageNum then (rest, some rest)
    else (pageNum :: rest, st.2)

/-- A browser with no open tab for any page. -/
def noTabs : Nat → Bool := fun _ => false

/-! ### Lock-acquisition protocols (C1)

The manager worker (`main`, lines 276-375) and the product worker
(`checkForDuplicateWorker`) run the same acquisition sequence; each Redis
command is one atomic step.  The episode is modelled under the assumptions
that no key expires during the acquisition burst and that every timestamp
written during it is fresh (`now - t < 30000` holds at every staleness
check), which is what `fresh` encodes. -/

/-- Program counter of the manager/product acquisition sequence.  `tryNX` is
the initial `SET k v EX ttl NX`; `readLock` the `GET`; `getSet` the `GETSET`
on a stale lock; `staleNX` the `SET NX` retry after `GETSET` returned an
unexpected stale value; `nilNX`, `nilCheck`, `finalNX` the retry chain after
`GETSET` returned nil; `lastNX` the `SET NX` retry when the first `GET` found
no lock. -/
inductive AcqPC where
  | tryNX
  | readLock
  | getSet
  | staleNX
  | nilNX
  | nilCheck
  | finalNX
  | lastNX
  | acquired
  | failed
deriving DecidableEq, Repr

/-- One candidate process: program counter plus the lock value it read at the
`GET` step (`existingLock`). -/
structure AcqProc where
  pc : AcqPC
  seen : Nat
deriving DecidableEq, Repr

/-- Two candidate processes and the lock key (`none` = absent). -/
structure AcqConfig where
  store : Option Nat
  proc1 : AcqProc
  proc2 : AcqProc
deriving DecidableEq, Repr

/-- One atomic Redis command of the manager/product acquisition sequence for a
process writing timestamp `t`.  `GETSET` always stores `t` and branches on the
returned old value exactly as the source does. -/
def acqStep (fresh : Nat → Bool) (t : Nat) (store : Option Nat) (p : AcqProc) :
    Option Nat × AcqProc :=
  match p.pc with
  | .tryNX =>
    match store with
    | none => (some t, { p with pc := .acquired })
    | some _ => (store, { p with pc := .readLock })
  | .readLock =>
    match store with
    | none => (store, { p with pc := .lastNX })
    | some v =>
      if fresh v then (store, { p with pc := .failed })
      else (store, { pc := .getSet, seen := v })
  | .getSet =>
    match store with
    | some w =>
      if w = p.seen then (some t, { p with pc := .acquired })
      else if fresh w then (some t, { p with pc := .failed })
      else (some t, { p with pc := .staleNX })
    | none => (some t, { p with pc := .nilNX })
  | .staleNX =>
    match store with
    | none => (some t, { p with pc := .acquired })
    | some _ => (store, { p with pc := .failed })
  | .nilNX =>
    match store with
    | none => (some t, { p with pc := .acquired })
    | some _ => (store, { p with pc := .nilCheck })
  | .nilCheck =>
    match store with
    | some w =>
      if fresh w then (store, { p with pc := .failed })
      else (store, { p with pc := .finalNX })
    | none => (store, { p with pc := .finalNX })
  | .finalNX =>
    match store with
    | none => (some t, { p with pc := .acquired })
    | some _ => (store, { p with pc := .failed })
  | .lastNX =>
    match store with
    | none => (some t, { p with pc := .acquired })
    | some _ => (store, { p with pc := .failed })
  | .acquired => (store, p)
  | .failed => (store, p)

/-- One scheduled step of the two-process acquisition: `true` steps process 1
(timestamp `t1`), `false` steps process 2 (timestamp `t2`). -/
def acqNext (fresh : Nat → Bool) (t1 t2 : Nat) (b : Bool) (cfg : AcqConfig) : AcqConfig :=
  if b then
    let r := acqStep fresh t1 cfg.store cfg.proc1
    { cfg with store := r.1, proc1 := r.2 }
  else
    let r := acqStep fresh t2 cfg.store cfg.proc2
    { cfg with store := r.1, proc2 := r.2 }

/-- Run the two-process acquisition under a schedule. -/
def acqRun (fresh : Nat → Bool) (t1 t2 : Nat) : List Bool → AcqConfig → AcqConfig
  | [], cfg => cfg
  | b :: rest, cfg => acqRun fresh t1 t2 rest (acqNext fresh t1 t2 b cfg)

/-- The lock key is still winnable: absent or holding a stale value. -/
def tokenFree (fresh : Nat → Bool) (store : Option Nat) : Bool :=
  match store with
  | none => true
  | some v => !(fresh v)

/-- Inductive invariant for mutual exclusion of the manager/product
acquisition: never two acquisitions; an acquisition consumed the token; a
process at `GETSET` read a stale value. -/
def acqInv (fresh : Nat → Bool) (cfg : AcqConfig) : Prop :=
  ¬(cfg.proc1.pc = .acquired ∧ cfg.proc2.pc = .acquired) ∧
    ((cfg.proc1.pc = .acquired ∨ cfg.proc2.pc = .acquired) →
      tokenFree fresh cfg.store = false) ∧
    (cfg.proc1.pc = .getSet → fresh cfg.proc1.seen = false) ∧
    (cfg.proc2.pc = .getSet → fresh cfg.proc2.seen = false)

/-- Program counter of the GENERAL worker's `checkForDuplicateWorker` (general
worker, lines 1150-1173): a plain `GET`, a staleness check, then an
unconditional `SET` with neither `NX` nor a TTL. -/
inductive GenAcqPC where
  | readLock
  | setLock
  | duplicate
  | acquired
deriving DecidableEq, Repr

/-- Two general-worker candidate processes and the lock key. -/
structure GenConfig where
  store : Option Nat
  pc1 : GenAcqPC
  pc2 : GenAcqPC
deriving DecidableEq, Repr

/-- One atomic Redis command of the general worker's acquisition. -/
def genAcqStep (fresh : Nat → Bool) (t : Nat) (store : Option Nat) (pc : GenAcqPC) :
    Option Nat × GenAcqPC :=
  match pc with
  | .readLock =>
    match store with
    | some v => if fresh v then (store, .duplicate) else (store, .setLock)
    | none => (store, .setLock)
  | .setLock => (some t, .acquired)
  | .duplicate => (store, .duplicate)
  | .acquired => (store, .acquired)

/-- Run two concurrent general-worker acquisitions under a schedule. -/
def genAcqRun (fresh : Nat → Bool) (t1 t2 : Nat) : List Bool → GenConfig → GenConfig
  | [], cfg => cfg
  | b :: rest, cfg =>
    genAcqRun fresh t1 t2 rest
      (if b then
        let r := genAcqStep fresh t1 cfg.store cfg.pc1
        { cfg with store := r.1, pc1 := r.2 }
      else
        let r := genAcqStep fresh t2 cfg.store cfg.pc2
        { cfg with store := r.1, pc2 := r.2 })

/-- Timestamps at or above 100 are fresh in the concrete lock scenarios. -/
def freshFrom100 : Nat → Bool := fun v => decide (100 ≤ v)

/-! ### Concrete coordinator states used as counterexamples and witnesses -/

/-- Four general workers with fresh heartbeats, no assignments yet. -/
def evenCexState : ManagerState where
  totalPages := some "5"
  generalHeartbeat := fun w => if 1 ≤ w ∧ w ≤ 4 then some "0" else none
  generalPages := fun _ => none
  generalComplete := fun _ => none
  generalProcessing := fun _ => none
  rotationIndex := none
  lastAssignedPage := none
  now := 0

/-- Two general workers with fresh heartbeats (scenario S1 of the spec). -/
def evenWitnessState : ManagerState where
  totalPages := some "300"
  generalHeartbeat := fun w => if 1 ≤ w ∧ w ≤ 2 then some "0" else none
  generalPages := fun _ => none
  generalComplete := fun _ => none
  generalProcessing := fun _ => none
  rotationIndex := none
  lastAssignedPage := none
  now := 0

/-- Worker 1 is mid-batch (`processing == "1"`) with range `{1,10}`; worker 2
is live with no `pages` key, which triggers even-mode reassignment. -/
def processingCexState : ManagerState where
  totalPages := some "10"
  generalHeartbeat := fun w => if 1 ≤ w ∧ w ≤ 2 then some "0" else none
  generalPages := fun w => if w = 1 then some ⟨1, 10⟩ else none
  generalComplete := fun _ => none
  generalProcessing := fun w => if w = 1 then some "1" else none
  rotationIndex := none
  lastAssignedPage := none
  now := 0

/-- Rotation-mode state: two live workers, 100 of 120 pages already handed
out, worker 1 next in rotation. -/
def rotationWitnessState : ManagerState where
  totalPages := some "120"
  generalHeartbeat := fun w => if 1 ≤ w ∧ w ≤ 2 then some "0" else none
  generalPages := fun _ => none
  generalComplete := fun _ => none
  generalProcessing := fun _ => none
  rotationIndex := some "0"
  lastAssignedPage := some "100"
  now := 0

/-- Product-worker page lists where page 5 is pending at two busy workers. -/
def sharedPageTables : Nat → Option (List Nat) := fun w =>
  if w = 1 then some [5, 6] else if w = 2 then some [5] else none

/-- Product-worker page lists where the first busy worker (id 1) has a single
page while worker 2 holds the most pages. -/
def firstBusyTables : Nat → Option (List Nat) := fun w =>
  if w = 1 then some [7] else if w = 2 then some [1, 2, 3, 4] else none

/-- Product-worker page lists for the rebalance witness: worker 1 busy with
five pages, workers 2 and 3 idle. -/
def rebalanceWitnessTables : Nat → Option (List Nat) := fun w =>
  if w = 1 then some [10, 11, 12, 13, 14] else if w = 2 then some [] else none

/-- C8 amended: worker 1's heartbeat is exactly 60 s old. -/
theorem c8_counterexample :
    jsParseInt "0" = some 0 ∧ ((60000 : Int) - 0 ≤ 60000) ∧
      detectActiveGeneralWorkers heartbeatAtZero 60000 = [] := by
  refine ⟨by decide, by decide, ?_⟩
  decide

/-- C8 (amended): a manager tick classifies a worker id in `1..20` as live iff
its heartbeat parses to a time `t` with `now - t` STRICTLY below 60000 ms, and
the live list is sorted in ascending id order. -/
theorem c8_liveness_classification (heartbeat : Nat → Option String) (now : Int) :
    (∀ workerId,
        workerId ∈ detectActiveGeneralWorkers heartbeat now ↔
          1 ≤ workerId ∧ workerId ≤ 20 ∧
            ∃ s t, heartbeat workerId = some s ∧ jsParseInt s = some t ∧ now - t < 60000) ∧
      (detectActiveGeneralWorkers heartbeat now).Sorted (· < ·) := by
  constructor
  · intro workerId
    simp only [detectActiveGeneralWorkers, List.mem_filter, List.mem_range'_1]
    cases hhb : heartbeat workerId with
    | none => simp [hhb]
    | some str =>
      cases hpi : jsParseInt str with
      | none => simp [hhb, hpi]
      | some t =>
        simp only [hhb, hpi, Option.some.injEq, decide_eq_true_eq]
        constructor
        · rintro ⟨⟨h1, h2⟩, hlt⟩
          exact ⟨h1, by omega, str, t, rfl, hpi, hlt⟩
        · rintro ⟨h1, h2, s, t', hs, ht', hlt⟩
          subst hs
          rw [hpi] at ht'
          injection ht' with ht'
          subst ht'
          exact ⟨⟨h1, by omega⟩, hlt⟩
  · exact List.Sorted.filter _ (List.pairwise_lt_range' 1 20)

/-- C9: the product worker's changed-ASINs check is set inequality: it fires
iff the set of newly extracted ASINs differs from the stored set. -/
theorem c9_asins_changed_iff_set_ne (existingAsins newAsins : List String) :
    asinsChanged existingAsins newAsins = true ↔
      newAsins.toFinset ≠ existingAsins.toFinset := by
  rw [← not_iff_not]
  simp only [asinsChanged, Bool.or_eq_true, decide_eq_true_eq, Bool.not_eq_true',
    not_or, not_not, List.all_eq_false]
  constructor
  · rintro ⟨hlen, hall⟩
    have hcard : newAsins.toFinset.card = existingAsins.toFinset.card := by
      rw [List.card_toFinset, List.card_toFinset]
      omega
    have hsub : newAsins.toFinset ⊆ existingAsins.toFinset := by
      intro a ha
      rw [List.mem_toFinset] at ha ⊢
      by_contra hmem
      exact hall ⟨a, by simpa using ha, by simpa using hmem⟩
    exact Finset.eq_of_subset_of_card_le hsub (le_of_eq hcard.symm)
  · intro heq
    constructor
    · rw [← List.card_toFinset, ← List.card_toFinset, heq]
    · rintro ⟨a, ha, hmem⟩
      rw [List.mem_dedup] at ha
      have : a ∈ existingAsins.toFinset := heq ▸ List.mem_toFinset.mpr ha
      rw [List.mem_toFinset] at this
      simp [this] at hmem

/-- C10: on a poll where the product worker has no non-empty page list but the
crawl trigger reads `"1"`, the worker deletes the trigger key and then starts
to crawl: at crawl entry the trigger is already absent. -/
theorem c10_trigger_consumed (s : ProductPollState)
    (hp : ∀ pages, s.workerPages = some pages → pages = [])
    (ht : s.crawlTrigger = some "1") :
    ∃ s', checkAndCrawlIfNeeded s = some s' ∧
      s'.crawlTrigger = none ∧ s'.workerPages = s.workerPages := by
  refine ⟨{ s with crawlTrigger := none }, ?_, rfl, rfl⟩
  rw [checkAndCrawlIfNeeded]
  cases hpages : s.workerPages with
  | none => simp [ht]
  | some pages =>
    have : pages = [] := hp pages hpages
    subst this
    simp [ht]

/-- C10 witness: a concrete poll state with an empty list and the trigger set. -/
theorem c10_trigger_consumed_witness :
    ∃ s', checkAndCrawlIfNeeded ⟨some [], some "1"⟩ = some s' ∧
      s'.crawlTrigger = none ∧ s'.workerPages = some [] := by
  exact c10_trigger_consumed ⟨some [], some "1"⟩ (fun pages h => by cases h; rfl) rfl

/-! ## Even-mode distribution (C2, C3) -/

theorem detect_nodup (heartbeat : Nat → Option String) (now : Int) :
    (detectActiveGeneralWorkers heartbeat now).Nodup :=
  List.Nodup.filter _ (List.nodup_range' 1 20)

theorem assignRangesFrom_pages_not_mem (p T : Nat) (l : List Nat) (i : Nat)
    (st : ManagerState) (w : Nat) (hw : w ∉ l) :
    (assignRangesFrom p T l i st).generalPages w = st.generalPages w := by
  induction l generalizing i st with
  | nil => rfl
  | cons a rest ih =>
    have hwa : w ≠ a := fun h => hw (h ▸ List.mem_cons_self a rest)
    have hwrest : w ∉ rest := fun h => hw (List.mem_cons_of_mem a h)
    rw [assignRangesFrom, ih _ _ hwrest]
    simp [hwa]

theorem assignRangesFrom_complete_not_mem (p T : Nat) (l : List Nat) (i : Nat)
    (st : ManagerState) (w : Nat) (hw : w ∉ l) :
    (assignRangesFrom p T l i st).generalComplete w = st.generalComplete w := by
  induction l generalizing i st with
  | nil => rfl
  | cons a rest ih =>
    have hwa : w ≠ a := fun h => hw (h ▸ List.mem_cons_self a rest)
    have hwrest : w ∉ rest := fun h => hw (List.mem_cons_of_mem a h)
    rw [assignRangesFrom, ih _ _ hwrest]
    simp [hwa]

theorem assignRangesFrom_pages_get (p T : Nat) (l : List Nat) (hnd : l.Nodup)
    (i0 j : Nat) (hj : j < l.length) (st : ManagerState) :
    (assignRangesFrom p T l i0 st).generalPages (l.get ⟨j, hj⟩) =
      some (evenRange p T (i0 + j)) := by
  induction l generalizing i0 st j with
  | nil => exact absurd hj (by simp)
  | cons a rest ih =>
    cases j with
    | zero =>
      have ha : a ∉ rest := (List.nodup_cons.mp hnd).1
      rw [assignRangesFrom]
      rw [show (a :: rest).get ⟨0, hj⟩ = a from rfl]
      rw [assignRangesFrom_pages_not_mem _ _ _ _ _ _ ha]
      simp
    | succ k =>
      have hk : k < rest.length := by simpa using hj
      rw [assignRangesFrom]
      rw [show (a :: rest).get ⟨k + 1, hj⟩ = rest.get ⟨k, hk⟩ from rfl]
      rw [ih (List.nodup_cons.mp hnd).2 (i0 + 1) k hk]
      congr 2
      omega

theorem assignRangesFrom_complete_get (p T : Nat) (l : List Nat) (hnd : l.Nodup)
    (i0 j : Nat) (hj : j < l.length) (st : ManagerState) :
    (assignRangesFrom p T l i0 st).generalComplete (l.get ⟨j, hj⟩) = none := by
  induction l generalizing i0 st j with
  | nil => exact absurd hj (by simp)
  | cons a rest ih =>
    cases j with
    | zero =>
      have ha : a ∉ rest := (List.nodup_cons.mp hnd).1
      rw [assignRangesFrom]
      rw [show (a :: rest).get ⟨0, hj⟩ = a from rfl]
      rw [assignRangesFrom_complete_not_mem _ _ _ _ _ _ ha]
      simp
    | succ k =>
      have hk : k < rest.length := by simpa using hj
      rw [assignRangesFrom]
      rw [show (a :: rest).get ⟨k + 1, hj⟩ = rest.get ⟨k, hk⟩ from rfl]
      exact ih (List.nodup_cons.mp hnd).2 (i0 + 1) k hk _

theorem pagesPerWorker_pos (T k : Nat) (hT : 0 < T) (hk : 0 < k) :
    0 < pagesPerWorker T k := by
  rw [pagesPerWorker]
  have := (Nat.le_div_iff_mul_le hk (y := T + k - 1)).mpr (by omega : 1 * k ≤ T + k - 1)
  omega

theorem le_mul_pagesPerWorker (T k : Nat) (hk : 0 < k) :
    T ≤ k * pagesPerWorker T k := by
  rw [pagesPerWorker]
  have hdm := Nat.div_add_mod (T + k - 1) k
  have hr : (T + k - 1) % k < k := Nat.mod_lt _ hk
  omega

/-- C2 counterexample: five total pages across four live workers give
`pagesPerWorker = 2`; position 3 is written the degenerate range `{7,5}` with
`start > end`, and adjacency `end + 1 = start` fails between positions 2 and 3
(`5 + 1 ≠ 7`). -/
theorem c2_counterexample :
    detectActiveGeneralWorkers evenCexState.generalHeartbeat evenCexState.now = [1, 2, 3, 4] ∧
      (distributePagesEvenly evenCexState 5).generalPages 3 = some ⟨5, 5⟩ ∧
      (distributePagesEvenly evenCexState 5).generalPages 4 = some ⟨7, 5⟩ ∧
      ¬((7 : Nat) ≤ 5) ∧ (5 : Nat) + 1 ≠ 7 := by
  refine ⟨by decide, by decide, by decide, by decide, by decide⟩

/-- C2 (amended): with `p = ceil(T/|W|)`, the even distribution writes
`evenRange p T i` to the worker at position `i` and clears its completion
flag; the ranges with `i * p < T` cover `[1..T]` with no overlap; adjacency
`end(i) + 1 = start(i+1)` holds whenever `(i+1) * p ≤ T`; and a written range
satisfies `start ≤ end` exactly when `i * p < T` (positions with `i * p ≥ T`
receive degenerate ranges). -/
theorem c2_even_partition (s : ManagerState) (T : Nat) (hT : 1 ≤ T)
    (active : List Nat) (ha : active = detectActiveGeneralWorkers s.generalHeartbeat s.now)
    (hne : active ≠ []) (p : Nat) (hp : p = pagesPerWorker T active.length) :
    (∀ j (hj : j < active.length),
        (distributePagesEvenly s T).generalPages (active.get ⟨j, hj⟩) =
            some (evenRange p T j) ∧
          (distributePagesEvenly s T).generalComplete (active.get ⟨j, hj⟩) = none) ∧
      (∀ q, (1 ≤ q ∧ q ≤ T) ↔
          ∃ i, i < active.length ∧
            (evenRange p T i).start ≤ q ∧ q ≤ (evenRange p T i).«end») ∧
      (∀ i j, i < j → j < active.length →
          (evenRange p T i).«end» < (evenRange p T j).start) ∧
      (∀ i, i + 1 < active.length → (i + 1) * p ≤ T →
          (evenRange p T i).«end» + 1 = (evenRange p T (i + 1)).start) ∧
      (∀ i, i < active.length →
          ((evenRange p T i).start ≤ (evenRange p T i).«end» ↔ i * p < T)) := by
  have hk : 0 < active.length := List.length_pos.mpr hne
  have hppos : 0 < p := by rw [hp]; exact pagesPerWorker_pos T _ hT hk
  have hcov : T ≤ active.length * p := by rw [hp]; exact le_mul_pagesPerWorker T _ hk
  have hnd : active.Nodup := ha ▸ detect_nodup _ _
  have hdist : distributePagesEvenly s T =
      assignRangesFrom p T active 0 s := by
    rw [distributePagesEvenly, ← ha, hp]
    rw [if_neg (by simpa [List.isEmpty_iff] using hne)]
  refine ⟨?_, ?_, ?_, ?_, ?_⟩
  · intro j hj
    rw [hdist]
    refine ⟨?_, assignRangesFrom_complete_get p T active hnd 0 j hj s⟩
    have := assignRangesFrom_pages_get p T active hnd 0 j hj s
    simpa using this
  · intro q
    constructor
    · rintro ⟨h1, h2⟩
      refine ⟨(q - 1) / p, ?_, ?_, ?_⟩
      · rw [Nat.div_lt_iff_lt_mul hppos]
        omega
      · have h3 := Nat.div_mul_le_self (q - 1) p
        simp only [evenRange]
        omega
      · have hdm := Nat.div_add_mod' (q - 1) p
        have hr : (q - 1) % p < p := Nat.mod_lt _ hppos
        simp only [evenRange]
        refine le_min ?_ h2
        rw [Nat.succ_mul]
        omega
    · rintro ⟨i, hik, hs, he⟩
      simp only [evenRange] at hs he
      have h2 : q ≤ T := le_trans he (min_le_right _ _)
      omega
  · intro i j hij hjk
    simp only [evenRange]
    have h1 : min ((i + 1) * p) T ≤ (i + 1) * p := min_le_left _ _
    have h2 : (i + 1) * p ≤ j * p := Nat.mul_le_mul_right _ (by omega)
    omega
  · intro i hik hle
    simp only [evenRange]
    rw [min_eq_left hle]
  · intro i hik
    simp only [evenRange]
    constructor
    · intro h
      have := le_trans h (min_le_right _ _)
      omega
    · intro h
      refine le_min ?_ (by omega)
      rw [Nat.succ_mul]
      omega

/-- C2 witness: scenario S1 — 300 pages, live workers `[1, 2]`,
`pagesPerWorker = 150`. -/
theorem c2_even_partition_witness :
    (distributePagesEvenly evenWitnessState 300).generalPages 1 = some ⟨1, 150⟩ ∧
      (distributePagesEvenly evenWitnessState 300).generalPages 2 = some ⟨151, 300⟩ := by
  have h := c2_even_partition evenWitnessState 300 (by decide) [1, 2] (by decide)
    (by decide) 150 (by decide)
  obtain ⟨h1, -⟩ := h
  have e1 := (h1 0 (by decide)).1
  have e2 := (h1 1 (by decide)).1
  exact ⟨e1, e2⟩

/-- C3 counterexample: worker 1 is `processing == "1"` with range `{1,10}`;
worker 2 (no `pages` key) triggers even-mode reassignment, and the
reassignment overwrites worker 1's `pages` key with `{1,5}`. -/
theorem c3_counterexample :
    processingCexState.generalProcessing 1 = some "1" ∧
      processingCexState.generalPages 1 = some ⟨1, 10⟩ ∧
      (checkAndAssignWorkEven processingCexState).generalPages 1 = some ⟨1, 5⟩ ∧
      some (⟨1, 5⟩ : PageRange) ≠ some (⟨1, 10⟩ : PageRange) := by
  refine ⟨rfl, by decide, by decide, by decide⟩

/-- C3 (amended): in even mode the `processing` flag only suppresses the
reassignment trigger — a processing worker's completion cannot fire it — but
once the trigger fires (a live worker lacks `pages`, or a non-processing live
worker completed below `totalPages`), `distributePagesEvenly` rewrites the
`pages` and `complete` keys of EVERY live worker, including the processing
ones; when the trigger does not fire the tick changes nothing. -/
theorem c3_processing_not_left_untouched (s : ManagerState) (T : Int) (str : String)
    (h1 : s.totalPages = some str) (h2 : jsParseInt str = some T) (h3 : 0 < T)
    (active : List Nat) (ha : active = detectActiveGeneralWorkers s.generalHeartbeat s.now)
    (hne : active ≠ []) :
    (needsAssignmentEven s T.toNat = true ↔
        ∃ w ∈ active, s.generalPages w = none ∨
          (s.generalProcessing w ≠ some "1" ∧ s.generalComplete w = some "1" ∧
            ∃ r, s.generalPages w = some r ∧ r.«end» < T.toNat)) ∧
      (needsAssignmentEven s T.toNat = true →
        ∀ j (hj : j < active.length),
          (checkAndAssignWorkEven s).generalPages (active.get ⟨j, hj⟩) =
            some (evenRange (pagesPerWorker T.toNat active.length) T.toNat j) ∧
          (checkAndAssignWorkEven s).generalComplete (active.get ⟨j, hj⟩) = none) ∧
      (needsAssignmentEven s T.toNat = false → checkAndAssignWorkEven s = s) := by
  have hred : checkAndAssignWorkEven s =
      (if needsAssignmentEven s T.toNat then distributePagesEvenly s T.toNat else s) := by
    rw [checkAndAssignWorkEven, h1]
    simp only [h2]
    rw [if_neg (by omega)]
    rw [if_neg (by simpa [List.isEmpty_iff, ← ha] using hne)]
  refine ⟨?_, ?_, ?_⟩
  · rw [needsAssignmentEven, ← ha, List.any_eq_true]
    constructor
    · rintro ⟨w, hw, hpred⟩
      refine ⟨w, hw, ?_⟩
      cases hpg : s.generalPages w with
      | none => exact Or.inl rfl
      | some r =>
        rw [hpg] at hpred
        simp only at hpred
        by_cases hproc : s.generalProcessing w = some "1"
        · rw [if_pos hproc] at hpred
          cases hpred
        · rw [if_neg hproc] at hpred
          simp only [Bool.and_eq_true, decide_eq_true_eq] at hpred
          exact Or.inr ⟨hproc, hpred.1, r, rfl, hpred.2⟩
    · rintro ⟨w, hw, hcase⟩
      refine ⟨w, hw, ?_⟩
      rcases hcase with hnone | ⟨hproc, hcomp, r, hpg, hlt⟩
      · rw [hnone]
      · rw [hpg]
        simp only
        rw [if_neg hproc]
        simp [hcomp, hlt]
  · intro hneed j hj
    rw [hred, if_pos hneed]
    have hnd : active.Nodup := ha ▸ detect_nodup _ _
    have hdist : distributePagesEvenly s T.toNat =
        assignRangesFrom (pagesPerWorker T.toNat active.length) T.toNat active 0 s := by
      rw [distributePagesEvenly, ← ha]
      rw [if_neg (by simpa [List.isEmpty_iff] using hne)]
    rw [hdist]
    refine ⟨?_, assignRangesFrom_complete_get _ _ active hnd 0 j hj s⟩
    have := assignRangesFrom_pages_get (pagesPerWorker T.toNat active.length) T.toNat
      active hnd 0 j hj s
    simpa using this
  · intro hneed
    rw [hred, if_neg (by simp [hneed])]

/-- C3 amended-claim witness: in `processingCexState` the trigger fires and
worker 1 — despite `processing == "1"` — is rewritten to `evenRange 5 10 0`. -/
theorem c3_processing_not_left_untouched_witness :
    (checkAndAssignWorkEven processingCexState).generalPages 1 =
        some (evenRange (pagesPerWorker 10 2) 10 0) ∧
      (checkAndAssignWorkEven processingCexState).generalComplete 1 = none := by
  have h := c3_processing_not_left_untouched processingCexState 10 "10" rfl (by decide)
    (by decide) [1, 2] (by decide) (by decide)
  exact (h.2.1 (by decide) 0 (by decide) : _)

/-! ## Decimal rendering round-trips through `parseInt` (used for C4) -/

theorem decDigitsRev_ofDigits (fuel : Nat) : ∀ n : Nat, n ≤ fuel →
    Nat.ofDigits 10 (decDigitsRev fuel n) = n := by
  induction fuel with
  | zero =>
    intro n hn
    interval_cases n
    rfl
  | succ fuel ih =>
    intro n hn
    rw [decDigitsRev]
    by_cases h0 : n = 0
    · simp [h0, Nat.ofDigits]
    · rw [if_neg h0, Nat.ofDigits_cons, ih (n / 10) (by omega)]
      omega

theorem decDigitsRev_lt_ten (fuel : Nat) : ∀ n d : Nat, d ∈ decDigitsRev fuel n → d < 10 := by
  induction fuel with
  | zero => intro n d hd; simp [decDigitsRev] at hd
  | succ fuel ih =>
    intro n d hd
    rw [decDigitsRev] at hd
    by_cases h0 : n = 0
    · simp [h0] at hd
    · rw [if_neg h0] at hd
      rcases List.mem_cons.mp hd with h | h
      · subst h; exact Nat.mod_lt _ (by omega)
      · exact ih _ _ h

theorem decDigitsRev_ne_nil (fuel n : Nat) (h0 : n ≠ 0) (hf : fuel ≠ 0) :
    decDigitsRev fuel n ≠ [] := by
  cases fuel with
  | zero => exact absurd rfl hf
  | succ fuel => rw [decDigitsRev, if_neg h0]; simp

theorem digitChar_toNat (d : Nat) (h : d < 10) : (Nat.digitChar d).toNat = 48 + d := by
  interval_cases d <;> rfl

theorem digitChar_isDigit (d : Nat) (h : d < 10) : (Nat.digitChar d).isDigit = true := by
  interval_cases d <;> decide

theorem digitChar_not_special (d : Nat) (h : d < 10) :
    (decide (Nat.digitChar d = ' ' ∨ Nat.digitChar d = '\t' ∨ Nat.digitChar d = '\n' ∨
        Nat.digitChar d = '\x0d') = false) ∧
      Nat.digitChar d ≠ '-' ∧ Nat.digitChar d ≠ '+' := by
  interval_cases d <;> exact ⟨by decide, by decide, by decide⟩

theorem foldl_digitChar_value (ds : List Nat) (hds : ∀ d ∈ ds, d < 10) (a : Nat) :
    ((ds.reverse.map Nat.digitChar).foldl (fun acc c => acc * 10 + (c.toNat - 48)) a) =
      a * 10 ^ ds.length + Nat.ofDigits 10 ds := by
  induction ds generalizing a with
  | nil => simp [Nat.ofDigits]
  | cons d tl ih =>
    have hd : d < 10 := hds d (List.mem_cons_self d tl)
    rw [List.reverse_cons, List.map_append, List.foldl_append,
      ih (fun x hx => hds x (List.mem_cons_of_mem d hx)) a]
    simp only [List.map_cons, List.map_nil, List.foldl_cons, List.foldl_nil,
      Nat.ofDigits_cons, List.length_cons]
    rw [digitChar_toNat d hd]
    ring_nf
    omega

theorem jsParseInt_natToDecimalString (n : Nat) :
    jsParseInt (natToDecimalString n) = some (n : Int) := by
  by_cases h0 : n = 0
  · subst h0; decide
  · rw [natToDecimalString, if_neg h0]
    have hlt : ∀ d ∈ decDigitsRev n n, d < 10 := fun d hd => decDigitsRev_lt_ten n n d hd
    have hne : decDigitsRev n n ≠ [] := decDigitsRev_ne_nil n n h0 h0
    obtain ⟨c, cs, hcons⟩ : ∃ c cs, (decDigitsRev n n).reverse.map Nat.digitChar = c :: cs := by
      cases hrev : (decDigitsRev n n).reverse.map Nat.digitChar with
      | nil =>
        exfalso
        apply hne
        have := congrArg List.length hrev
        simp at this
        exact this
      | cons c cs => exact ⟨c, cs, rfl⟩
    obtain ⟨dc, hdc_mem, hdc⟩ : ∃ d, d ∈ decDigitsRev n n ∧ Nat.digitChar d = c := by
      have : c ∈ (decDigitsRev n n).reverse.map Nat.digitChar := by
        rw [hcons]; exact List.mem_cons_self c cs
      rw [List.mem_map] at this
      obtain ⟨d, hd, hdc⟩ := this
      exact ⟨d, List.mem_reverse.mp hd, hdc⟩
    have hdclt : dc < 10 := hlt dc hdc_mem
    have hspecial := digitChar_not_special dc hdclt
    rw [jsParseInt]
    have htl : (String.mk ((decDigitsRev n n).reverse.map Nat.digitChar)).toList =
        (decDigitsRev n n).reverse.map Nat.digitChar := rfl
    rw [htl, hcons]
    rw [List.dropWhile_cons]
    rw [hdc] at hspecial
    rw [if_neg (by simp only [hspecial.1]; exact Bool.false_ne_true)]
    simp only
    rw [if_neg hspecial.2.1, if_neg hspecial.2.2]
    have hall : ∀ ch ∈ c :: cs, ch.isDigit = true := by
      intro ch hch
      rw [← hcons] at hch
      rw [List.mem_map] at hch
      obtain ⟨d, hd, hchd⟩ := hch
      rw [← hchd]
      exact digitChar_isDigit d (hlt d (List.mem_reverse.mp hd))
    rw [jsDigits]
    simp only [List.takeWhile_eq_self_iff.mpr hall]
    rw [if_neg (by simp)]
    rw [← hcons, foldl_digitChar_value _ hlt 0]
    rw [decDigitsRev_ofDigits n n le_rfl]
    simp

theorem parseRotationValue_natToDecimalString (n : Nat) :
    parseRotationValue (some (natToDecimalString n)) = n := by
  rw [parseRotationValue]
  simp only [jsParseInt_natToDecimalString]
  rw [if_pos (by positivity)]
  simp

/-- C4: one rotation-mode distribution step, from a validated
`lastAssignedPage = L ≤ totalPages`.  While `L < totalPages` the step assigns
`[L+1 .. min(L+B, T)]` to some live worker, clears its completion flag, the
batch is at most `B` pages, `lastAssignedPage` strictly advances to the
assigned end and stays at most `totalPages`; when `L = totalPages` (the only
reachable reset point, by the `≤` invariant) the step resets both rotation
keys to `"0"` and clears every live worker's `pages` and `complete`. -/
theorem c4_rotation_invariant (s : ManagerState) (T B : Nat) (hT : 1 ≤ T) (hB : 1 ≤ B)
    (active : List Nat) (ha : active = detectActiveGeneralWorkers s.generalHeartbeat s.now)
    (hne : active ≠ []) (L : Nat) (hL : L = parseRotationValue s.lastAssignedPage)
    (hLT : L ≤ T) :
    (L < T →
      ∃ w ∈ active,
        (distributePagesRoundRobin s T B).generalPages w = some ⟨L + 1, min (L + B) T⟩ ∧
          (distributePagesRoundRobin s T B).generalComplete w = none ∧
          min (L + B) T - (L + 1) + 1 ≤ B ∧
          L < min (L + B) T ∧ min (L + B) T ≤ T ∧
          parseRotationValue (distributePagesRoundRobin s T B).lastAssignedPage =
            min (L + B) T) ∧
      (L = T →
        (distributePagesRoundRobin s T B).lastAssignedPage = some "0" ∧
          (distributePagesRoundRobin s T B).rotationIndex = some "0" ∧
          parseRotationValue (distributePagesRoundRobin s T B).lastAssignedPage = 0 ∧
          ∀ w ∈ active,
            (distributePagesRoundRobin s T B).generalPages w = none ∧
              (distributePagesRoundRobin s T B).generalComplete w = none) := by
  have hkpos : 0 < active.length := List.length_pos.mpr hne
  have hredNE : ¬ ((detectActiveGeneralWorkers s.generalHeartbeat s.now).isEmpty = true) := by
    simpa [List.isEmpty_iff, ← ha] using hne
  constructor
  · intro hlt
    have hnotge : ¬ (parseRotationValue s.lastAssignedPage ≥ T) := by omega
    have hse : L + 1 + B - 1 = L + B := by omega
    have hidx : (if parseRotationValue s.rotationIndex ≥ active.length then 0
        else parseRotationValue s.rotationIndex) % active.length < active.length :=
      Nat.mod_lt _ hkpos
    have hmain : distributePagesRoundRobin s T B =
        { s with
          generalPages := fun w =>
            if w = active.getD ((if parseRotationValue s.rotationIndex ≥ active.length then 0
                else parseRotationValue s.rotationIndex) % active.length) 0 then
              some ⟨L + 1, min (L + B) T⟩
            else s.generalPages w
          generalComplete := fun w =>
            if w = active.getD ((if parseRotationValue s.rotationIndex ≥ active.length then 0
                else parseRotationValue s.rotationIndex) % active.length) 0 then none
            else s.generalComplete w
          rotationIndex := some (natToDecimalString
            (((if parseRotationValue s.rotationIndex ≥ active.length then 0
                else parseRotationValue s.rotationIndex) + 1) % active.length))
          lastAssignedPage := some (natToDecimalString (min (L + B) T)) } := by
      rw [distributePagesRoundRobin]
      simp only [← ha, ← hL]
      rw [if_neg (show ¬ (active.isEmpty = true) by simpa [List.isEmpty_iff] using hne)]
      rw [if_neg (by omega : ¬ (L ≥ T))]
      rw [if_neg (by omega : ¬ (L + 1 > T)), hse]
    set w := active.getD ((if parseRotationValue s.rotationIndex ≥ active.length then 0
        else parseRotationValue s.rotationIndex) % active.length) 0 with hw
    have hwmem : w ∈ active := by
      rw [hw, List.getD_eq_getElem active 0 hidx]
      exact List.getElem_mem _
    refine ⟨w, hwmem, ?_, ?_, by omega, by omega, by omega, ?_⟩
    · rw [hmain]; simp
    · rw [hmain]; simp
    · rw [hmain]
      exact parseRotationValue_natToDecimalString _
  · intro heq
    have hge : parseRotationValue s.lastAssignedPage ≥ T := by omega
    have hmain : distributePagesRoundRobin s T B =
        { s with
          rotationIndex := some "0"
          lastAssignedPage := some "0"
          generalComplete := fun w => if w ∈ active then none else s.generalComplete w
          generalPages := fun w => if w ∈ active then none else s.generalPages w } := by
      rw [distributePagesRoundRobin]
      simp only [← ha]
      rw [if_neg (show ¬ (active.isEmpty = true) by simpa [List.isEmpty_iff] using hne)]
      rw [if_pos hge]
    rw [hmain]
    refine ⟨rfl, rfl, (by decide : parseRotationValue (some "0") = 0), ?_⟩
    intro w hwmem
    simp [hwmem]

/-- C4 witness: 120 total pages, batch size 50, live workers `[1, 2]`,
`lastAssignedPage = "100"`: the step assigns `[101, 120]` to a live worker and
advances `lastAssignedPage` to 120. -/
theorem c4_rotation_invariant_witness :
    ∃ w ∈ [1, 2],
      (distributePagesRoundRobin rotationWitnessState 120 50).generalPages w =
          some ⟨101, min (100 + 50) 120⟩ ∧
        (distributePagesRoundRobin rotationWitnessState 120 50).generalComplete w = none ∧
        min (100 + 50) 120 - (100 + 1) + 1 ≤ 50 ∧
        100 < min (100 + 50) 120 ∧ min (100 + 50) 120 ≤ 120 ∧
        parseRotationValue
            (distributePagesRoundRobin rotationWitnessState 120 50).lastAssignedPage =
          min (100 + 50) 120 := by
  exact (c4_rotation_invariant rotationWitnessState 120 50 (by decide) (by decide) [1, 2]
    (by decide) (by decide) 100 (by decide) (by decide)).1 (by decide)

/-! ## Rebalancing (C5, C6) -/

theorem giveChunksFrom_not_mem (r : List Nat) (ppi : Nat) (idle : List Nat) (i : Nat)
    (wp : Nat → Option (List Nat)) (w : Nat) (hw : w ∉ idle) :
    giveChunksFrom r ppi idle i wp w = wp w := by
  induction idle generalizing i wp with
  | nil => rfl
  | cons a rest ih =>
    have hwa : w ≠ a := fun h => hw (h ▸ List.mem_cons_self a rest)
    have hwrest : w ∉ rest := fun h => hw (List.mem_cons_of_mem a h)
    rw [giveChunksFrom, ih _ _ hwrest]
    split
    · simp [hwa]
    · rfl

theorem giveChunksFrom_get (r : List Nat) (ppi : Nat) (idle : List Nat) (hnd : idle.Nodup)
    (i0 j : Nat) (hj : j < idle.length) (wp : Nat → Option (List Nat)) :
    giveChunksFrom r ppi idle i0 wp (idle.get ⟨j, hj⟩) =
      (if ((r.drop ((i0 + j) * ppi)).take ppi).length > 0
        then some ((r.drop ((i0 + j) * ppi)).take ppi)
        else wp (idle.get ⟨j, hj⟩)) := by
  induction idle generalizing i0 wp j with
  | nil => exact absurd hj (by simp)
  | cons a rest ih =>
    cases j with
    | zero =>
      have ha : a ∉ rest := (List.nodup_cons.mp hnd).1
      rw [giveChunksFrom]
      rw [show (a :: rest).get ⟨0, hj⟩ = a from rfl]
      rw [giveChunksFrom_not_mem _ _ _ _ _ _ ha]
      simp only [Nat.add_zero]
      split
      · simp
      · rfl
    | succ k =>
      have ha : a ∉ rest := (List.nodup_cons.mp hnd).1
      have hk : k < rest.length := by simpa using hj
      rw [giveChunksFrom]
      rw [show (a :: rest).get ⟨k + 1, hj⟩ = rest.get ⟨k, hk⟩ from rfl]
      rw [ih (List.nodup_cons.mp hnd).2 (i0 + 1) k hk]
      have hidx : i0 + 1 + k = i0 + (k + 1) := by omega
      rw [hidx]
      have hne2 : rest[k] ≠ a := by
        intro h
        exact ha (h ▸ List.getElem_mem hk)
      split
      · rfl
      · split
        · simp [hne2]
        · rfl

theorem chunks_flatten (ppi : Nat) (k : Nat) : ∀ r : List Nat, r.length ≤ k * ppi →
    ((List.range k).map (fun i => (r.drop (i * ppi)).take ppi)).flatten = r := by
  induction k with
  | zero =>
    intro r hr
    rw [Nat.zero_mul, Nat.le_zero] at hr
    rw [List.length_eq_zero.mp hr]
    rfl
  | succ k ih =>
    intro r hr
    rw [Nat.succ_mul] at hr
    rw [List.range_succ_eq_map, List.map_cons, List.flatten_cons, List.map_map]
    have hmap : ((List.range k).map ((fun i => (r.drop (i * ppi)).take ppi) ∘ Nat.succ)) =
        (List.range k).map (fun i => ((r.drop ppi).drop (i * ppi)).take ppi) := by
      apply List.map_congr_left
      intro i _
      simp only [Function.comp]
      rw [List.drop_drop]
      congr 2
      rw [Nat.succ_mul, Nat.add_comm]
    rw [hmap, ih (r.drop ppi) (by rw [List.length_drop]; omega)]
    rw [Nat.zero_mul, List.drop_zero]
    exact List.take_append_drop ppi r

theorem pendingPages_nil (wp : Nat → Option (List Nat)) : pendingPages wp [] = 0 := rfl

theorem pendingPages_cons (wp : Nat → Option (List Nat)) (a : Nat) (l : List Nat) :
    pendingPages wp (a :: l) = ((wp a).getD [] : List Nat) + pendingPages wp l := by
  simp [pendingPages]

theorem pendingPages_append (wp : Nat → Option (List Nat)) (l1 l2 : List Nat) :
    pendingPages wp (l1 ++ l2) = pendingPages wp l1 + pendingPages wp l2 := by
  simp [pendingPages]

theorem pendingPages_congr (wp wq : Nat → Option (List Nat)) (l : List Nat)
    (h : ∀ w ∈ l, wp w = wq w) : pendingPages wp l = pendingPages wq l := by
  unfold pendingPages
  rw [List.map_congr_left (fun w hw => by rw [h w hw])]

theorem pendingPages_perm (wp : Nat → Option (List Nat)) (l1 l2 : List Nat)
    (h : l1.Perm l2) : pendingPages wp l1 = pendingPages wp l2 := by
  unfold pendingPages
  rw [Multiset.coe_eq_coe]
  exact (h.map _).flatten

theorem pendingPages_giveChunksFrom (r : List Nat) (ppi : Nat) (idle : List Nat)
    (hnd : idle.Nodup) : ∀ (i0 : Nat) (base : Nat → Option (List Nat)),
    (∀ w ∈ idle, (base w).getD [] = []) →
    pendingPages (giveChunksFrom r ppi idle i0 base) idle =
      (((List.range idle.length).map
        (fun j => (r.drop ((i0 + j) * ppi)).take ppi)).flatten : List Nat) := by
  induction idle with
  | nil => intro i0 base hbase; rfl
  | cons a rest ih =>
    intro i0 base hbase
    have ha : a ∉ rest := (List.nodup_cons.mp hnd).1
    have hndr : rest.Nodup := (List.nodup_cons.mp hnd).2
    rw [pendingPages_cons]
    have hfa : giveChunksFrom r ppi (a :: rest) i0 base a =
        (if ((r.drop (i0 * ppi)).take ppi).length > 0
          then some ((r.drop (i0 * ppi)).take ppi) else base a) := by
      have := giveChunksFrom_get r ppi (a :: rest) hnd i0 0 (by simp) base
      simpa using this
    have hrest : pendingPages (giveChunksFrom r ppi (a :: rest) i0 base) rest =
        (((List.range rest.length).map
          (fun j => (r.drop ((i0 + 1 + j) * ppi)).take ppi)).flatten : List Nat) := by
      rw [giveChunksFrom]
      apply ih hndr (i0 + 1)
      intro w hw
      have hwa : w ≠ a := fun h => ha (h ▸ hw)
      split
      · simp only [if_neg hwa]
        exact hbase w (List.mem_cons_of_mem a hw)
      · exact hbase w (List.mem_cons_of_mem a hw)
    rw [hfa, hrest]
    have hchunk : (((if ((r.drop (i0 * ppi)).take ppi).length > 0
        then some ((r.drop (i0 * ppi)).take ppi) else base a)).getD [] : List Nat) =
        ((r.drop (i0 * ppi)).take ppi : List Nat) := by
      split
      · rfl
      · rename_i hlen
        rw [hbase a (List.mem_cons_self a rest)]
        have : (r.drop (i0 * ppi)).take ppi = [] := by
          cases h : (r.drop (i0 * ppi)).take ppi with
          | nil => rfl
          | cons x xs => rw [h] at hlen; simp at hlen
        rw [this]
    rw [hchunk]
    rw [List.length_cons, List.range_succ_eq_map, List.map_cons, List.flatten_cons,
      List.map_map]
    have hmap : ((List.range rest.length).map
        ((fun j => (r.drop ((i0 + j) * ppi)).take ppi) ∘ Nat.succ)) =
        (List.range rest.length).map (fun j => (r.drop ((i0 + 1 + j) * ppi)).take ppi) := by
      apply List.map_congr_left
      intro i _
      simp only [Function.comp]
      congr 3
      omega
    rw [hmap]
    simp [Nat.add_zero]

theorem isBusyWorker_false_getD (wp : Nat → Option (List Nat)) (w : Nat)
    (h : isBusyWorker wp w = false) : ((wp w).getD [] : List Nat) = [] := by
  rw [isBusyWorker] at h
  cases hw : wp w with
  | none => rfl
  | some pages =>
    rw [hw] at h
    simp at h
    simp [hw, h]


theorem reassign_main_eq (wp : Nat → Option (List Nat)) (active : List Nat)
    (b : Nat) (btail : List Nat)
    (hbusy : active.filter (fun w => isBusyWorker wp w) = b :: btail)
    (i0 : Nat) (itail : List Nat)
    (hidle : active.filter (fun w => !(isBusyWorker wp w)) = i0 :: itail)
    (pages : List Nat) (hpb : wp b = some pages) (hlen : 1 < pages.length) :
    reassignPagesFromIdleWorkers wp active =
      giveChunksFrom (pages.drop ((pages.length + 1) / 2))
        (((pages.drop ((pages.length + 1) / 2)).length +
            (active.filter (fun w => !(isBusyWorker wp w))).length - 1) /
          (active.filter (fun w => !(isBusyWorker wp w))).length)
        (active.filter (fun w => !(isBusyWorker wp w))) 0
        (fun w => if w = b then some (pages.take ((pages.length + 1) / 2)) else wp w) := by
  rw [reassignPagesFromIdleWorkers]
  simp only [hbusy, hpb]
  rw [if_pos (show (decide ((active.filter (fun w => !(isBusyWorker wp w))).length > 0) &&
      decide ((b :: btail).length > 0)) = true by rw [hidle]; simp)]
  rw [if_pos hlen]

theorem reassign_noop (wp : Nat → Option (List Nat)) (active : List Nat)
    (h : (∀ b btail, active.filter (fun w => isBusyWorker wp w) = b :: btail →
      ∀ pages, wp b = some pages → ¬(1 < pages.length)) ∨
      active.filter (fun w => !(isBusyWorker wp w)) = [] ∨
      active.filter (fun w => isBusyWorker wp w) = []) :
    reassignPagesFromIdleWorkers wp active = wp := by
  rw [reassignPagesFromIdleWorkers]
  cases hbusy : active.filter (fun w => isBusyWorker wp w) with
  | nil => simp [hbusy]
  | cons b btail =>
    cases hidle : active.filter (fun w => !(isBusyWorker wp w)) with
    | nil => simp [hidle]
    | cons i0 itail =>
      rw [if_pos (show (decide ((i0 :: itail).length > 0) &&
          decide ((b :: btail).length > 0)) = true by simp)]
      rcases h with h | h | h
      · cases hpb : wp b with
        | none => simp only [hpb]
        | some pages =>
          simp only [hpb]
          rw [if_neg (h b btail hbusy pages hpb)]
      · rw [hidle] at h; cases h
      · rw [hbusy] at h; cases h

theorem pendingPages_after_main (wp : Nat → Option (List Nat)) (active : List Nat)
    (b : Nat) (btail pages : List Nat) (hnd : active.Nodup)
    (hbusy : active.filter (fun w => isBusyWorker wp w) = b :: btail)
    (hidle_ne : active.filter (fun w => !(isBusyWorker wp w)) ≠ [])
    (hpb : wp b = some pages) (hlen : 1 < pages.length) :
    pendingPages (reassignPagesFromIdleWorkers wp active) active = pendingPages wp active := by
  obtain ⟨i0, itail, hidle⟩ : ∃ i0 itail,
      active.filter (fun w => !(isBusyWorker wp w)) = i0 :: itail := by
    cases h : active.filter (fun w => !(isBusyWorker wp w)) with
    | nil => exact absurd h hidle_ne
    | cons i0 itail => exact ⟨i0, itail, rfl⟩
  have heq := reassign_main_eq wp active b btail hbusy i0 itail hidle pages hpb hlen
  have hperm := List.filter_append_perm (fun w => isBusyWorker wp w) active
  have hidnd : (active.filter (fun w => !(isBusyWorker wp w))).Nodup :=
    List.Nodup.filter _ hnd
  have hbnd : (b :: btail).Nodup := hbusy ▸ List.Nodup.filter _ hnd
  have hbusy_mem : ∀ w ∈ b :: btail, isBusyWorker wp w = true := by
    intro w hw
    exact (List.mem_filter.mp (hbusy ▸ hw)).2
  have hnotidle : ∀ w, isBusyWorker wp w = true →
      w ∉ active.filter (fun w => !(isBusyWorker wp w)) := by
    intro w hbw hmem
    rw [List.mem_filter, hbw] at hmem
    simp at hmem
  have hbni : b ∉ active.filter (fun w => !(isBusyWorker wp w)) :=
    hnotidle b (hbusy_mem b (List.mem_cons_self b btail))
  have hfb : reassignPagesFromIdleWorkers wp active b =
      some (pages.take ((pages.length + 1) / 2)) := by
    rw [heq, giveChunksFrom_not_mem _ _ _ _ _ _ hbni]
    simp
  have hftail : ∀ w ∈ btail, reassignPagesFromIdleWorkers wp active w = wp w := by
    intro w hw
    have hwnb : w ≠ b := by
      intro hwe
      exact (List.nodup_cons.mp hbnd).1 (hwe ▸ hw)
    rw [heq, giveChunksFrom_not_mem _ _ _ _ _ _
      (hnotidle w (hbusy_mem w (List.mem_cons_of_mem b hw)))]
    simp [hwnb]
  have hidlepos : 0 < (active.filter (fun w => !(isBusyWorker wp w))).length :=
    List.length_pos.mpr hidle_ne
  have hbase_idle : ∀ w ∈ active.filter (fun w => !(isBusyWorker wp w)),
      (((fun w => if w = b then some (pages.take ((pages.length + 1) / 2)) else wp w) w).getD []
        : List Nat) = [] := by
    intro w hw
    have hwne : w ≠ b := fun h => hbni (h ▸ hw)
    simp only [if_neg hwne]
    have := (List.mem_filter.mp hw).2
    exact isBusyWorker_false_getD wp w (by simpa using this)
  have hflat : pendingPages (reassignPagesFromIdleWorkers wp active)
      (active.filter (fun w => !(isBusyWorker wp w))) =
      ((pages.drop ((pages.length + 1) / 2) : List Nat) : Multiset Nat) := by
    rw [heq, pendingPages_giveChunksFrom _ _ _ hidnd 0 _ hbase_idle]
    have hzero : ((List.range (active.filter (fun w => !(isBusyWorker wp w))).length).map
        (fun j => ((pages.drop ((pages.length + 1) / 2)).drop
          ((0 + j) * (((pages.drop ((pages.length + 1) / 2)).length +
            (active.filter (fun w => !(isBusyWorker wp w))).length - 1) /
            (active.filter (fun w => !(isBusyWorker wp w))).length))).take
          (((pages.drop ((pages.length + 1) / 2)).length +
            (active.filter (fun w => !(isBusyWorker wp w))).length - 1) /
            (active.filter (fun w => !(isBusyWorker wp w))).length))) =
        ((List.range (active.filter (fun w => !(isBusyWorker wp w))).length).map
        (fun j => ((pages.drop ((pages.length + 1) / 2)).drop
          (j * (((pages.drop ((pages.length + 1) / 2)).length +
            (active.filter (fun w => !(isBusyWorker wp w))).length - 1) /
            (active.filter (fun w => !(isBusyWorker wp w))).length))).take
          (((pages.drop ((pages.length + 1) / 2)).length +
            (active.filter (fun w => !(isBusyWorker wp w))).length - 1) /
            (active.filter (fun w => !(isBusyWorker wp w))).length))) := by
      apply List.map_congr_left
      intro j _
      congr 3
      omega
    rw [hzero, chunks_flatten _ _ _ ?hle]
    case hle =>
      exact le_mul_pagesPerWorker (pages.drop ((pages.length + 1) / 2)).length
        (active.filter (fun w => !(isBusyWorker wp w))).length hidlepos
  have hold_idle : pendingPages wp (active.filter (fun w => !(isBusyWorker wp w))) = 0 := by
    rw [pendingPages]
    rw [List.map_congr_left (fun w hw =>
      isBusyWorker_false_getD wp w (by simpa using (List.mem_filter.mp hw).2))]
    simp
  have htd : ((pages.take ((pages.length + 1) / 2) : List Nat) : Multiset Nat) +
      ((pages.drop ((pages.length + 1) / 2) : List Nat) : Multiset Nat) =
      ((pages : List Nat) : Multiset Nat) := by
    conv_rhs => rw [← List.take_append_drop ((pages.length + 1) / 2) pages]
    simp
  calc pendingPages (reassignPagesFromIdleWorkers wp active) active
      = pendingPages (reassignPagesFromIdleWorkers wp active)
          (active.filter (fun w => isBusyWorker wp w) ++
            active.filter (fun w => !(isBusyWorker wp w))) :=
        (pendingPages_perm _ _ _ hperm).symm
    _ = pendingPages (reassignPagesFromIdleWorkers wp active) (b :: btail) +
          pendingPages (reassignPagesFromIdleWorkers wp active)
            (active.filter (fun w => !(isBusyWorker wp w))) := by
        rw [hbusy, pendingPages_append]
    _ = ((pages.take ((pages.length + 1) / 2) : List Nat) : Multiset Nat) +
          pendingPages wp btail +
          ((pages.drop ((pages.length + 1) / 2) : List Nat) : Multiset Nat) := by
        rw [pendingPages_cons, hfb,
          pendingPages_congr _ wp btail hftail, hflat]
        rfl
    _ = ((pages : List Nat) : Multiset Nat) + pendingPages wp btail := by
        rw [add_right_comm, htd]
    _ = pendingPages wp (b :: btail) +
          pendingPages wp (active.filter (fun w => !(isBusyWorker wp w))) := by
        rw [pendingPages_cons, hpb, hold_idle, add_zero]
        rfl
    _ = pendingPages wp (active.filter (fun w => isBusyWorker wp w) ++
          active.filter (fun w => !(isBusyWorker wp w))) := by
        rw [hbusy, pendingPages_append]
    _ = pendingPages wp active := pendingPages_perm _ _ _ hperm

/-- C5 counterexample: page 5 is pending at both workers 1 and 2 before the
rebalance and still is afterwards, so the unconditional "no page appears in
two different workers' lists afterwards" conclusion is false. -/
theorem c5_counterexample :
    reassignPagesFromIdleWorkers sharedPageTables [1, 2, 3] 1 = some [5] ∧
      reassignPagesFromIdleWorkers sharedPageTables [1, 2, 3] 2 = some [5] ∧
      (1 : Nat) ≠ 2 := by
  refine ⟨by decide, by decide, by decide⟩

/-- C5 (amended): one execution of the rebalance step leaves the multiset of
pending page numbers over the active product workers unchanged; consequently
when no page number initially occurs twice across the lists, none does
afterwards (an initially duplicated page, however, stays duplicated). -/
theorem c5_rebalance_conservation (wp : Nat → Option (List Nat)) (active : List Nat)
    (hnd : active.Nodup) :
    pendingPages (reassignPagesFromIdleWorkers wp active) active =
        pendingPages wp active ∧
      ((pendingPages wp active).Nodup →
        (pendingPages (reassignPagesFromIdleWorkers wp active) active).Nodup) := by
  have hcons : pendingPages (reassignPagesFromIdleWorkers wp active) active =
      pendingPages wp active := by
    cases hbusy : active.filter (fun w => isBusyWorker wp w) with
    | nil => rw [reassign_noop wp active (Or.inr (Or.inr hbusy))]
    | cons b btail =>
      cases hidle : active.filter (fun w => !(isBusyWorker wp w)) with
      | nil => rw [reassign_noop wp active (Or.inr (Or.inl hidle))]
      | cons i0 itail =>
        cases hpb : wp b with
        | none =>
          have hno : ∀ b' btail',
              active.filter (fun w => isBusyWorker wp w) = b' :: btail' →
              ∀ pages, wp b' = some pages → ¬(1 < pages.length) := by
            intro b' btail' hb' pages hpg
            have hbb : b' = b := by
              rw [hbusy] at hb'
              exact (List.cons.injEq _ _ _ _ ▸ hb').1.symm
            rw [hbb, hpb] at hpg
            cases hpg
          rw [reassign_noop wp active (Or.inl hno)]
        | some pages =>
          by_cases hgt : 1 < pages.length
          · exact pendingPages_after_main wp active b btail pages hnd hbusy
              (by rw [hidle]; simp) hpb hgt
          · have hno : ∀ b' btail',
                active.filter (fun w => isBusyWorker wp w) = b' :: btail' →
                ∀ pages', wp b' = some pages' → ¬(1 < pages'.length) := by
              intro b' btail' hb' pages' hpg
              have hbb : b' = b := by
                rw [hbusy] at hb'
                exact (List.cons.injEq _ _ _ _ ▸ hb').1.symm
              rw [hbb, hpb] at hpg
              injection hpg with hpg
              rw [← hpg]
              exact hgt
            rw [reassign_noop wp active (Or.inl hno)]
  exact ⟨hcons, fun h => hcons ▸ h⟩

/-- C5 amended-claim witness: a concrete rebalance (worker 1 busy with five
pages, workers 2 and 3 idle) preserves the pending multiset. -/
theorem c5_rebalance_conservation_witness :
    pendingPages (reassignPagesFromIdleWorkers rebalanceWitnessTables [1, 2, 3]) [1, 2, 3] =
        pendingPages rebalanceWitnessTables [1, 2, 3] ∧
      ((pendingPages rebalanceWitnessTables [1, 2, 3]).Nodup →
        (pendingPages (reassignPagesFromIdleWorkers rebalanceWitnessTables [1, 2, 3])
          [1, 2, 3]).Nodup) :=
  c5_rebalance_conservation rebalanceWitnessTables [1, 2, 3] (by decide)

/-- C6 counterexample: busy group `[1, 2]` (worker 1 has one page, worker 2
has four — the most) and idle group `[3]` are both non-empty, yet the
rebalance removes nothing: the code looks only at the FIRST busy worker, whose
single page fails the `length > 1` guard, and the worker with the most pending
pages keeps all four. -/
theorem c6_counterexample :
    isBusyWorker firstBusyTables 1 = true ∧
      isBusyWorker firstBusyTables 2 = true ∧
      isBusyWorker firstBusyTables 3 = false ∧
      ((firstBusyTables 2).getD []).length = 4 ∧
      ((firstBusyTables 1).getD []).length = 1 ∧
      reassignPagesFromIdleWorkers firstBusyTables [1, 2, 3] 2 = some [1, 2, 3, 4] ∧
      reassignPagesFromIdleWorkers firstBusyTables [1, 2, 3] 1 = some [7] := by
  refine ⟨rfl, rfl, rfl, rfl, rfl, by decide, by decide⟩

/-- C6 (amended): whenever both groups are non-empty and the FIRST busy worker
(in ascending id order) holds `n > 1` pages, the rebalance keeps that worker's
first `ceil(n/2)` pages and removes the remaining `floor(n/2) = n - ceil(n/2)`
pages, handing idle worker at position `j` the contiguous chunk
`removed.slice(j*ppi, (j+1)*ppi)` with `ppi = ceil(removed/idleCount)` (empty
chunks are not written); when the first busy worker holds at most one page no
rebalance occurs at all, whatever the other busy workers hold. -/
theorem c6_rebalance_amount (wp : Nat → Option (List Nat)) (active : List Nat)
    (b : Nat) (btail pages : List Nat) (hnd : active.Nodup)
    (hbusy : active.filter (fun w => isBusyWorker wp w) = b :: btail)
    (hidle_ne : active.filter (fun w => !(isBusyWorker wp w)) ≠ [])
    (hpb : wp b = some pages) (hlen : 1 < pages.length) :
    reassignPagesFromIdleWorkers wp active b =
        some (pages.take ((pages.length + 1) / 2)) ∧
      (pages.drop ((pages.length + 1) / 2)).length = pages.length / 2 ∧
      (∀ j (hj : j < (active.filter (fun w => !(isBusyWorker wp w))).length),
        reassignPagesFromIdleWorkers wp active
            ((active.filter (fun w => !(isBusyWorker wp w))).get ⟨j, hj⟩) =
          if (((pages.drop ((pages.length + 1) / 2)).drop
              (j * (((pages.drop ((pages.length + 1) / 2)).length +
                (active.filter (fun w => !(isBusyWorker wp w))).length - 1) /
                (active.filter (fun w => !(isBusyWorker wp w))).length))).take
              (((pages.drop ((pages.length + 1) / 2)).length +
                (active.filter (fun w => !(isBusyWorker wp w))).length - 1) /
                (active.filter (fun w => !(isBusyWorker wp w))).length)).length > 0
          then some (((pages.drop ((pages.length + 1) / 2)).drop
              (j * (((pages.drop ((pages.length + 1) / 2)).length +
                (active.filter (fun w => !(isBusyWorker wp w))).length - 1) /
                (active.filter (fun w => !(isBusyWorker wp w))).length))).take
              (((pages.drop ((pages.length + 1) / 2)).length +
                (active.filter (fun w => !(isBusyWorker wp w))).length - 1) /
                (active.filter (fun w => !(isBusyWorker wp w))).length))
          else wp ((active.filter (fun w => !(isBusyWorker wp w))).get ⟨j, hj⟩)) := by
  obtain ⟨i0, itail, hidle⟩ : ∃ i0 itail,
      active.filter (fun w => !(isBusyWorker wp w)) = i0 :: itail := by
    cases h : active.filter (fun w => !(isBusyWorker wp w)) with
    | nil => exact absurd h hidle_ne
    | cons i0 itail => exact ⟨i0, itail, rfl⟩
  have heq := reassign_main_eq wp active b btail hbusy i0 itail hidle pages hpb hlen
  have hidnd : (active.filter (fun w => !(isBusyWorker wp w))).Nodup :=
    List.Nodup.filter _ hnd
  have hbni : b ∉ active.filter (fun w => !(isBusyWorker wp w)) := by
    intro hmem
    rw [List.mem_filter] at hmem
    have hb : isBusyWorker wp b = true :=
      (List.mem_filter.mp (hbusy ▸ List.mem_cons_self b btail)).2
    rw [hb] at hmem
    simp at hmem
  refine ⟨?_, ?_, ?_⟩
  · rw [heq, giveChunksFrom_not_mem _ _ _ _ _ _ hbni]
    simp
  · rw [List.length_drop]
    omega
  · intro j hj
    have hgne : (active.filter (fun w => !(isBusyWorker wp w))).get ⟨j, hj⟩ ≠ b := by
      intro h
      exact hbni (h ▸ List.get_mem _ _ _)
    rw [heq, giveChunksFrom_get _ _ _ hidnd 0 j hj]
    simp only [Nat.zero_add]
    rw [if_neg hgne]

/-- C6 witness: worker 1 busy with `[10..14]` (n = 5), workers 2 and 3 idle:
the step keeps `[10,11,12]` (ceil-half), removes `floor(5/2) = 2` pages and
hands `[13]` to worker 2 and `[14]` to worker 3. -/
theorem c6_rebalance_amount_witness :
    reassignPagesFromIdleWorkers rebalanceWitnessTables [1, 2, 3] 1 = some [10, 11, 12] ∧
      (([10, 11, 12, 13, 14] : List Nat).drop ((5 + 1) / 2)).length = 2 ∧
      reassignPagesFromIdleWorkers rebalanceWitnessTables [1, 2, 3] 2 = some [13] ∧
      reassignPagesFromIdleWorkers rebalanceWitnessTables [1, 2, 3] 3 = some [14] := by
  have h := c6_rebalance_amount rebalanceWitnessTables [1, 2, 3] 1 [] [10, 11, 12, 13, 14]
    (by decide) (by decide) (by decide) rfl (by decide)
  exact ⟨h.1, h.2.1.trans (by decide), (h.2.2 0 (by decide)).trans (by decide),
    (h.2.2 1 (by decide)).trans (by decide)⟩

/-! ## The missing-tab page is never skipped (C7) -/

/-- C7: with `product/1/pages = [5]` and no open tab for page 5, every number
of iterations of the outer page loop leaves both the local work list and the
stored list exactly `[5]`: the page stays at the head and is retried forever,
it is never removed.  (The code logs "skipping" but only breaks the retry
loop; the `shift()` that removes a page runs only on the successful path.) -/
theorem c7_missing_tab_never_removed :
    ∀ n : Nat, (crawlOuterStep noTabs)^[n] ([5], some [5]) = ([5], some [5]) := by
  have hstep : crawlOuterStep noTabs ([5], some [5]) = ([5], some [5]) := by decide
  intro n
  induction n with
  | zero => rfl
  | succ k ih => rw [Function.iterate_succ_apply, hstep, ih]

/-! ## Lock acquisition (C1) -/

theorem acqStep_facts (fresh : Nat → Bool) (t : Nat) (store : Option Nat) (p : AcqProc)
    (ht : fresh t = true) (hseen : p.pc = .getSet → fresh p.seen = false) :
    ((acqStep fresh t store p).2.pc = .acquired →
        p.pc = .acquired ∨ tokenFree fresh store = true) ∧
      ((acqStep fresh t store p).2.pc = .acquired → p.pc ≠ .acquired →
        tokenFree fresh (acqStep fresh t store p).1 = false) ∧
      (tokenFree fresh (acqStep fresh t store p).1 = true →
        tokenFree fresh store = true) ∧
      ((acqStep fresh t store p).2.pc = .getSet →
        fresh (acqStep fresh t store p).2.seen = false) ∧
      (p.pc = .acquired →
        (acqStep fresh t store p).2.pc = .acquired ∧ (acqStep fresh t store p).1 = store) := by
  cases hpc : p.pc <;> cases store <;>
    simp_all [acqStep, tokenFree] <;>
    split_ifs <;>
    simp_all [tokenFree]

theorem acqNext_inv (fresh : Nat → Bool) (t1 t2 : Nat)
    (h1 : fresh t1 = true) (h2 : fresh t2 = true) (b : Bool) (cfg : AcqConfig)
    (hinv : acqInv fresh cfg) : acqInv fresh (acqNext fresh t1 t2 b cfg) := by
  obtain ⟨hmutex, htoken, hs1, hs2⟩ := hinv
  cases b with
  | true =>
    have hf := acqStep_facts fresh t1 cfg.store cfg.proc1 h1 hs1
    obtain ⟨ha, hb, hc, hd, he⟩ := hf
    refine ⟨?_, ?_, ?_, ?_⟩
    · rintro ⟨hq1, hq2⟩
      simp only [acqNext, if_true] at hq1 hq2
      have h2acq : cfg.proc2.pc = .acquired := hq2
      have htok : tokenFree fresh cfg.store = false := htoken (Or.inr h2acq)
      rcases ha hq1 with hold | hfree
      · exact hmutex ⟨hold, h2acq⟩
      · rw [hfree] at htok; cases htok
    · intro hq
      simp only [acqNext, if_true] at hq ⊢
      rcases hq with hq1 | hq2
      · by_cases hold : cfg.proc1.pc = .acquired
        · rw [(he hold).2]
          exact htoken (Or.inl hold)
        · exact hb hq1 hold
      · have htok : tokenFree fresh cfg.store = false := htoken (Or.inr hq2)
        cases hnew : tokenFree fresh (acqStep fresh t1 cfg.store cfg.proc1).1 with
        | false => rfl
        | true => rw [hc hnew] at htok; cases htok
    · intro hq
      simp only [acqNext, if_true] at hq ⊢
      exact hd hq
    · intro hq
      simp only [acqNext, if_true] at hq ⊢
      exact hs2 hq
  | false =>
    have hf := acqStep_facts fresh t2 cfg.store cfg.proc2 h2 hs2
    obtain ⟨ha, hb, hc, hd, he⟩ := hf
    refine ⟨?_, ?_, ?_, ?_⟩
    · rintro ⟨hq1, hq2⟩
      simp only [acqNext, Bool.false_eq_true, if_false] at hq1 hq2
      have h1acq : cfg.proc1.pc = .acquired := hq1
      have htok : tokenFree fresh cfg.store = false := htoken (Or.inl h1acq)
      rcases ha hq2 with hold | hfree
      · exact hmutex ⟨h1acq, hold⟩
      · rw [hfree] at htok; cases htok
    · intro hq
      simp only [acqNext, Bool.false_eq_true, if_false] at hq ⊢
      rcases hq with hq1 | hq2
      · have htok : tokenFree fresh cfg.store = false := htoken (Or.inl hq1)
        cases hnew : tokenFree fresh (acqStep fresh t2 cfg.store cfg.proc2).1 with
        | false => rfl
        | true => rw [hc hnew] at htok; cases htok
      · by_cases hold : cfg.proc2.pc = .acquired
        · rw [(he hold).2]
          exact htoken (Or.inr hold)
        · exact hb hq2 hold
    · intro hq
      simp only [acqNext, Bool.false_eq_true, if_false] at hq ⊢
      exact hs1 hq
    · intro hq
      simp only [acqNext, Bool.false_eq_true, if_false] at hq ⊢
      exact hd hq

theorem acqRun_inv (fresh : Nat → Bool) (t1 t2 : Nat)
    (h1 : fresh t1 = true) (h2 : fresh t2 = true) (sched : List Bool) :
    ∀ cfg : AcqConfig, acqInv fresh cfg → acqInv fresh (acqRun fresh t1 t2 sched cfg) := by
  induction sched with
  | nil => intro cfg h; exact h
  | cons b rest ih =>
    intro cfg h
    rw [acqRun]
    exact ih _ (acqNext_inv fresh t1 t2 h1 h2 b cfg h)

/-- C1 counterexample: the GENERAL worker's `checkForDuplicateWorker` does not
begin with `SET NX`; it is a plain `GET` followed by an unconditional `SET`.
Under the interleaving read-read-set-set, two concurrently started general
workers with the same id BOTH conclude they acquired `lock/general-<id>`. -/
theorem c1_counterexample :
    (genAcqRun freshFrom100 100 101 [true, false, true, false]
        ⟨none, .readLock, .readLock⟩).pc1 = .acquired ∧
      (genAcqRun freshFrom100 100 101 [true, false, true, false]
        ⟨none, .readLock, .readLock⟩).pc2 = .acquired := by
  refine ⟨by decide, by decide⟩

/-- C1 (amended): the manager and product workers do start with the
conditional `SET NX EX`, and their full acquisition sequence is mutually
exclusive: for every interleaving of two candidate processes (under the
episode assumptions encoded in the model — no TTL expiry during the burst and
all timestamps written during it fresh), at most one process ever reaches the
`acquired` state, whatever the initial lock value.  The general worker's
protocol, by contrast, admits double acquisition (see the counterexample). -/
theorem c1_manager_product_mutex (fresh : Nat → Bool) (t1 t2 : Nat)
    (h1 : fresh t1 = true) (h2 : fresh t2 = true) (v0 : Option Nat) (sched : List Bool) :
    ¬((acqRun fresh t1 t2 sched ⟨v0, ⟨.tryNX, 0⟩, ⟨.tryNX, 0⟩⟩).proc1.pc = .acquired ∧
      (acqRun fresh t1 t2 sched ⟨v0, ⟨.tryNX, 0⟩, ⟨.tryNX, 0⟩⟩).proc2.pc = .acquired) := by
  have hinit : acqInv fresh ⟨v0, ⟨.tryNX, 0⟩, ⟨.tryNX, 0⟩⟩ := by
    refine ⟨?_, ?_, ?_, ?_⟩
    · rintro ⟨h, -⟩; simp at h
    · rintro (h | h) <;> simp at h
    · intro h; simp at h
    · intro h; simp at h
  exact (acqRun_inv fresh t1 t2 h1 h2 sched _ hinit).1

/-- C1 witness: a concrete race of two manager/product candidates over a stale
initial lock value 5 — neither double-acquires under a fully interleaved
schedule. -/
theorem c1_manager_product_mutex_witness :
    ¬((acqRun freshFrom100 100 101 [true, false, true, false, true, false, true, false]
        ⟨some 5, ⟨.tryNX, 0⟩, ⟨.tryNX, 0⟩⟩).proc1.pc = .acquired ∧
      (acqRun freshFrom100 100 101 [true, false, true, false, true, false, true, false]
        ⟨some 5, ⟨.tryNX, 0⟩, ⟨.tryNX, 0⟩⟩).proc2.pc = .acquired) :=
  c1_manager_product_mutex freshFrom100 100 101 (by decide) (by decide) (some 5)
    [true, false, true, false, true, false, true, false]
